import Mathlib

/-! The OpenObserve sink for zap.

A model of `sink.go`: the sink type `OpenObserveSink` with its methods `Write`, `Sync`
and `Close`, the constructor `New`, and the factory that `init` registers for the
scheme `oo`.  The sink calls into `encoding/json`, `net/url` and `net/http`; the parts of
those packages that decide what the sink does are modelled below, byte for byte where
the result is needed, and left as a parameter (`Runtime`) where it is not.

Go byte slices and strings are lists of byte values.
-/

namespace OpenObserve

abbrev Bytes := List Nat

/-- The bytes of an ASCII string. -/
def ascii (s : String) : Bytes := s.toList.map Char.toNat

/-! ## encoding/json: the scanner -/

/-- A number literal `[-]digits[.digits][e[+-]digits]` read as `(-1)^neg * mant * 10^exp10`. -/
structure NumLit where
  neg : Bool
  mant : Nat
  exp10 : Int
deriving DecidableEq, Repr

/-- A parsed JSON text; strings are kept as written, escapes included. -/
inductive JSON where
  | null
  | bool (b : Bool)
  | num (n : NumLit)
  | str (raw : Bytes)
  | arr (xs : List JSON)
  | obj (kvs : List (Bytes × JSON))
deriving Repr

def isSpace (c : Nat) : Bool := c == 0x20 || c == 0x09 || c == 0x0d || c == 0x0a

def skipSpace : Bytes → Bytes
  | [] => []
  | c :: rest => if isSpace c then skipSpace rest else c :: rest

def isDigit (c : Nat) : Bool := 0x30 ≤ c && c ≤ 0x39

def isHex (c : Nat) : Bool :=
  isDigit c || (0x61 ≤ c && c ≤ 0x66) || (0x41 ≤ c && c ≤ 0x46)

def isSimpleEscape (c : Nat) : Bool :=
  c == 0x22 || c == 0x5c || c == 0x2f || c == 0x62 || c == 0x66 || c == 0x6e ||
    c == 0x72 || c == 0x74

/-- Scans the body of a string literal, after the opening quote, up to the closing quote. -/
def scanString : Bytes → Option (Bytes × Bytes)
  | [] => none
  | 0x5c :: 0x75 :: a :: b :: c :: d :: rest =>
    if isHex a && isHex b && isHex c && isHex d then
      (scanString rest).map fun (s, r) => (0x5c :: 0x75 :: a :: b :: c :: d :: s, r)
    else none
  | 0x5c :: e :: rest =>
    if isSimpleEscape e then (scanString rest).map fun (s, r) => (0x5c :: e :: s, r)
    else none
  | c :: rest =>
    if c == 0x22 then some ([], rest)
    else if c == 0x5c || c < 0x20 then none
    else (scanString rest).map fun (s, r) => (c :: s, r)


def takeDigits : Bytes → List Nat × Bytes
  | [] => ([], [])
  | c :: rest =>
    if isDigit c then ((c - 0x30) :: (takeDigits rest).1, (takeDigits rest).2)
    else ([], c :: rest)

def digitsToNat (ds : List Nat) : Nat := ds.foldl (fun acc d => 10 * acc + d) 0

/-- Integer part of a number literal: a single `0`, or a non-zero digit followed by digits. -/
def scanInt : Bytes → Option (List Nat × Bytes)
  | 0x30 :: rest => some ([0], rest)
  | c :: rest => if isDigit c then some (takeDigits (c :: rest)) else none
  | [] => none

/-- Optional fraction part: a dot followed by at least one digit. -/
def scanFrac : Bytes → Option (List Nat × Bytes)
  | 0x2e :: rest =>
    match takeDigits rest with
    | ([], _) => none
    | (ds, r) => some (ds, r)
  | inp => some ([], inp)

def scanExpDigits (negative : Bool) (inp : Bytes) : Option (Int × Bytes) :=
  match takeDigits inp with
  | ([], _) => none
  | (ds, r) => some (if negative then -(digitsToNat ds : Int) else (digitsToNat ds : Int), r)

/-- Optional exponent part: `e` or `E`, an optional sign, at least one digit. -/
def scanExp : Bytes → Option (Int × Bytes)
  | 0x65 :: 0x2b :: rest => scanExpDigits false rest
  | 0x65 :: 0x2d :: rest => scanExpDigits true rest
  | 0x65 :: rest => scanExpDigits false rest
  | 0x45 :: 0x2b :: rest => scanExpDigits false rest
  | 0x45 :: 0x2d :: rest => scanExpDigits true rest
  | 0x45 :: rest => scanExpDigits false rest
  | inp => some (0, inp)

def scanUnsigned (negative : Bool) (inp : Bytes) : Option (NumLit × Bytes) :=
  match scanInt inp with
  | none => none
  | some (ip, r1) =>
    match scanFrac r1 with
    | none => none
    | some (fp, r2) =>
      match scanExp r2 with
      | none => none
      | some (e, r3) => some (⟨negative, digitsToNat (ip ++ fp), e - fp.length⟩, r3)

def scanNumber : Bytes → Option (NumLit × Bytes)
  | 0x2d :: rest => scanUnsigned true rest
  | inp => scanUnsigned false inp

def maxNestingDepth : Nat := 10000

/-- A value that is not an array or an object: a string, `true`, `false`, `null` or a
number. -/
def scanLiteral : Bytes → Option (JSON × Bytes)
  | 0x22 :: rest => (scanString rest).map fun (s, r) => (.str s, r)
  | 0x74 :: 0x72 :: 0x75 :: 0x65 :: rest => some (.bool true, rest)
  | 0x66 :: 0x61 :: 0x6c :: 0x73 :: 0x65 :: rest => some (.bool false, rest)
  | 0x6e :: 0x75 :: 0x6c :: 0x6c :: rest => some (.null, rest)
  | r => (scanNumber r).map fun (n, r1) => (.num n, r1)

mutual
/-- One JSON value, with leading white space; `depth` counts the enclosing arrays and
objects, of which the scanner of `encoding/json` allows `maxNestingDepth`. -/
def parseValue : Nat → Nat → Bytes → Option (JSON × Bytes)
  | 0, _, _ => none
  | fuel + 1, depth, inp =>
    match skipSpace inp with
    | 0x7b :: rest =>
      if depth ≥ maxNestingDepth then none
      else match skipSpace rest with
        | 0x7d :: r => some (.obj [], r)
        | r => (parseMembers fuel (depth + 1) r).map fun (kvs, r1) => (.obj kvs, r1)
    | 0x5b :: rest =>
      if depth ≥ maxNestingDepth then none
      else match skipSpace rest with
        | 0x5d :: r => some (.arr [], r)
        | r => (parseElements fuel (depth + 1) r).map fun (xs, r1) => (.arr xs, r1)
    | r => scanLiteral r
/-- The elements of a non-empty array, up to and including the closing bracket. -/
def parseElements : Nat → Nat → Bytes → Option (List JSON × Bytes)
  | 0, _, _ => none
  | fuel + 1, depth, inp =>
    match parseValue fuel depth inp with
    | none => none
    | some (v, r) =>
      match skipSpace r with
      | 0x2c :: r1 => (parseElements fuel depth r1).map fun (xs, r2) => (v :: xs, r2)
      | 0x5d :: r1 => some ([v], r1)
      | _ => none
/-- The members of a non-empty object, up to and including the closing brace. -/
def parseMembers : Nat → Nat → Bytes → Option (List (Bytes × JSON) × Bytes)
  | 0, _, _ => none
  | fuel + 1, depth, inp =>
    match skipSpace inp with
    | 0x22 :: r0 =>
      match scanString r0 with
      | none => none
      | some (k, r1) =>
        match skipSpace r1 with
        | 0x3a :: r2 =>
          match parseValue fuel depth r2 with
          | none => none
          | some (v, r3) =>
            match skipSpace r3 with
            | 0x2c :: r4 => (parseMembers fuel depth r4).map fun (kvs, r5) => ((k, v) :: kvs, r5)
            | 0x7d :: r4 => some ([(k, v)], r4)
            | _ => none
        | _ => none
    | _ => none
end

/-- Validity check and parse of a complete JSON text: one value, white space around
it.  Every step of the parser consumes input, so the length of the text bounds the
recursion: more fuel gives the same result (`parseValue_fuel_enough`). -/
def parseJSON (data : Bytes) : Option JSON :=
  match parseValue (data.length + 1) 0 data with
  | some (v, rest) => if skipSpace rest = [] then some v else none
  | none => none


/-! ## encoding/json: decoding into Go values -/

/-- A finite IEEE-754 binary64 value, `(-1)^neg * mant * 2^exp`. -/
structure Float64 where
  neg : Bool
  mant : Nat
  exp : Int
deriving DecidableEq, Repr

/-- The fraction `num / (den * 2^k)` as a pair of naturals. -/
def scale2 (num den : Nat) (k : Int) : Nat × Nat :=
  if 0 ≤ k then (num, den * 2 ^ k.toNat) else (num * 2 ^ (-k).toNat, den)

def roundHalfEven (n d : Nat) : Nat :=
  if 2 * (n % d) > d || (2 * (n % d) == d && (n / d) % 2 == 1) then n / d + 1 else n / d

/-- Number of bits of `n`, below the position of its leading one: `floor (log2 n)`. -/
def log2Nat : Nat → Nat → Nat
  | 0, _ => 0
  | fuel + 1, n => if n < 2 then 0 else log2Nat fuel (n / 2) + 1

def floorLog2 (num den : Nat) : Int :=
  let b : Int := (log2Nat num num : Int) - (log2Nat den den : Int)
  if (scale2 num den b).1 < (scale2 num den b).2 then b - 1 else b


/-- The least magnitude that rounds to infinity, `2^1024 - 2^970`: the largest finite
binary64 value plus half a unit in its last place. -/
def float64Overflow : Nat := (2 ^ 54 - 1) * 2 ^ 250 * 2 ^ 250 * 2 ^ 250 * 2 ^ 220

/-- Rounds the positive rational `num / den` to the nearest binary64 value, ties to even;
`none` when the result is out of range (at least `2^1024 - 2^970`). -/
def roundToFloat64 (neg : Bool) (num den : Nat) : Option Float64 :=
  if float64Overflow * den ≤ num then none
  else
    let k : Int := max (floorLog2 num den - 52) (-1074)
    let q := roundHalfEven (scale2 num den k).1 (scale2 num den k).2
    if q = 0 then some ⟨neg, 0, 0⟩
    else if q = 2 ^ 53 then some ⟨neg, 2 ^ 52, k + 1⟩
    else some ⟨neg, q, k⟩

def parseFloat (lit : NumLit) : Option Float64 :=
  if lit.mant = 0 then some ⟨lit.neg, 0, 0⟩
  else if 0 ≤ lit.exp10 then roundToFloat64 lit.neg (lit.mant * 10 ^ lit.exp10.toNat) 1
  else roundToFloat64 lit.neg lit.mant (10 ^ (-lit.exp10).toNat)



/-- A value of Go type `interface{}` as produced by the decoder. -/
inductive GoVal where
  | nil
  | bool (b : Bool)
  | float64 (f : Float64)
  | string (s : Bytes)
  | slice (xs : List GoVal)
  | map (kvs : List (Bytes × GoVal))
deriving Repr

/-- A Go `map[string]interface{}` with its entries kept in increasing key order. -/
abbrev GoMap := List (Bytes × GoVal)

/-- One element of the pending batch; `none` is the nil map. -/
abbrev Record := Option GoMap

def bytesLt : Bytes → Bytes → Bool
  | [], [] => false
  | [], _ :: _ => true
  | _ :: _, [] => false
  | a :: as, b :: bs => a < b || (a == b && bytesLt as bs)

/-- Map assignment `m[k] = v`. -/
def mapSet : GoMap → Bytes → GoVal → GoMap
  | [], k, v => [(k, v)]
  | (k1, v1) :: rest, k, v =>
    if bytesLt k k1 then (k, v) :: (k1, v1) :: rest
    else if k = k1 then (k, v) :: rest
    else (k1, v1) :: mapSet rest k v

def isCont (b : Nat) : Bool := 0x80 ≤ b && b ≤ 0xbf

def utf8Second (b0 b1 : Nat) : Bool :=
  (if b0 == 0xe0 then 0xa0 else if b0 == 0xf0 then 0x90 else 0x80) ≤ b1 &&
    b1 ≤ (if b0 == 0xed then 0x9f else if b0 == 0xf4 then 0x8f else 0xbf)

/-- Width of the valid UTF-8 encoding at the head of `s`; 0 when there is none. -/
def utf8Width : Bytes → Nat
  | b0 :: b1 :: b2 :: b3 :: _ =>
    if 0xc2 ≤ b0 && b0 ≤ 0xdf then (if isCont b1 then 2 else 0)
    else if 0xe0 ≤ b0 && b0 ≤ 0xef then (if utf8Second b0 b1 && isCont b2 then 3 else 0)
    else if 0xf0 ≤ b0 && b0 ≤ 0xf4 then
      (if utf8Second b0 b1 && isCont b2 && isCont b3 then 4 else 0)
    else 0
  | [b0, b1, b2] =>
    if 0xc2 ≤ b0 && b0 ≤ 0xdf then (if isCont b1 then 2 else 0)
    else if 0xe0 ≤ b0 && b0 ≤ 0xef then (if utf8Second b0 b1 && isCont b2 then 3 else 0)
    else 0
  | [b0, b1] => if 0xc2 ≤ b0 && b0 ≤ 0xdf && isCont b1 then 2 else 0
  | _ => 0

def replacementChar : Bytes := [0xef, 0xbf, 0xbd]

/-- UTF-8 encoding of a rune; surrogates and values out of range become U+FFFD. -/
def encodeRune (r : Nat) : Bytes :=
  if r ≤ 0x7f then [r]
  else if r ≤ 0x7ff then [0xc0 + r / 64, 0x80 + r % 64]
  else if 0x10ffff < r || (0xd800 ≤ r && r ≤ 0xdfff) then replacementChar
  else if r ≤ 0xffff then [0xe0 + r / 4096, 0x80 + r / 64 % 64, 0x80 + r % 64]
  else [0xf0 + r / 262144, 0x80 + r / 4096 % 64, 0x80 + r / 64 % 64, 0x80 + r % 64]

def hexVal (c : Nat) : Nat :=
  if isDigit c then c - 0x30 else if 0x61 ≤ c then c - 0x61 + 10 else c - 0x41 + 10

/-- The four hex digits of a `\uXXXX` escape at the head of `s`. -/
def getu4 : Bytes → Option Nat
  | 0x5c :: 0x75 :: a :: b :: c :: d :: _ =>
    if isHex a && isHex b && isHex c && isHex d then
      some (((hexVal a * 16 + hexVal b) * 16 + hexVal c) * 16 + hexVal d)
    else none
  | _ => none

def simpleEscape (c : Nat) : Nat :=
  if c == 0x62 then 0x08 else if c == 0x66 then 0x0c else if c == 0x6e then 0x0a
  else if c == 0x72 then 0x0d else if c == 0x74 then 0x09 else c

/-- Converts the body of a scanned string literal to the Go string it denotes. -/
def unquote : Nat → Bytes → Bytes
  | 0, _ => []
  | _ + 1, [] => []
  | fuel + 1, 0x5c :: 0x75 :: rest =>
    match getu4 (0x5c :: 0x75 :: rest) with
    | none => []
    | some rr =>
      if 0xd800 ≤ rr && rr < 0xe000 then
        match getu4 (rest.drop 4) with
        | some rr1 =>
          if rr < 0xdc00 && 0xdc00 ≤ rr1 && rr1 < 0xe000 then
            encodeRune ((rr - 0xd800) * 1024 + (rr1 - 0xdc00) + 0x10000) ++
              unquote fuel (rest.drop 10)
          else replacementChar ++ unquote fuel (rest.drop 4)
        | none => replacementChar ++ unquote fuel (rest.drop 4)
      else encodeRune rr ++ unquote fuel (rest.drop 4)
  | fuel + 1, 0x5c :: e :: rest => simpleEscape e :: unquote fuel rest
  | fuel + 1, c :: rest =>
    if c < 0x80 then c :: unquote fuel rest
    else if utf8Width (c :: rest) = 0 then replacementChar ++ unquote fuel rest
    else (c :: rest).take (utf8Width (c :: rest)) ++
      unquote fuel ((c :: rest).drop (utf8Width (c :: rest)))

def unquoteBytes (raw : Bytes) : Bytes := unquote raw.length raw

mutual
/-- Conversion of a parsed value to an `interface{}`; `none` when a number literal does
not fit a float64. -/
def decodeValue : JSON → Option GoVal
  | .null => some .nil
  | .bool b => some (.bool b)
  | .num n => (parseFloat n).map GoVal.float64
  | .str raw => some (.string (unquoteBytes raw))
  | .arr xs => (decodeElements xs).map GoVal.slice
  | .obj kvs => (decodeMembers kvs []).map GoVal.map
def decodeElements : List JSON → Option (List GoVal)
  | [] => some []
  | x :: xs =>
    match decodeValue x, decodeElements xs with
    | some v, some vs => some (v :: vs)
    | _, _ => none
def decodeMembers : List (Bytes × JSON) → GoMap → Option GoMap
  | [], m => some m
  | (k, x) :: rest, m =>
    match decodeValue x with
    | some v => decodeMembers rest (mapSet m (unquoteBytes k) v)
    | none => none
end

inductive UnmarshalError where
  | syntaxError
  | typeError (value : String)
deriving DecidableEq, Repr

/-- The call `json.Unmarshal(p, &msg)` with `msg` a fresh empty `map[string]interface{}`. -/
def jsonUnmarshal (p : Bytes) : Except UnmarshalError Record :=
  match parseJSON p with
  | none => .error .syntaxError
  | some .null => .ok none
  | some (.obj kvs) =>
    match decodeMembers kvs [] with
    | some m => .ok (some m)
    | none => .error (.typeError "number")
  | some (.arr _) => .error (.typeError "array")
  | some (.str _) => .error (.typeError "string")
  | some (.num _) => .error (.typeError "number")
  | some (.bool _) => .error (.typeError "bool")


/-! ## encoding/json: encoding -/

/-- The integer a float64 denotes, when its magnitude is an integer below `2^53`. -/
def float64Int (f : Float64) : Option Nat :=
  if f.mant = 0 then some 0
  else if 0 ≤ f.exp then
    (if f.exp ≤ 52 && f.mant * 2 ^ f.exp.toNat < 2 ^ 53 then some (f.mant * 2 ^ f.exp.toNat)
     else none)
  else if -1074 ≤ f.exp && f.mant % 2 ^ (-f.exp).toNat = 0 &&
      f.mant / 2 ^ (-f.exp).toNat < 2 ^ 53 then
    some (f.mant / 2 ^ (-f.exp).toNat)
  else none

def decimal (n : Nat) : Bytes := (Nat.toDigits 10 n).map Char.toNat

/-- The float encoder of `encoding/json`. -/
def encodeFloat (fmt : Float64 → Bytes) (f : Float64) : Bytes :=
  match float64Int f with
  | some n => if f.neg then 0x2d :: decimal n else decimal n
  | none => fmt f

def htmlSafe (b : Nat) : Bool :=
  0x20 ≤ b && b < 0x80 && b != 0x22 && b != 0x26 && b != 0x3c && b != 0x3e && b != 0x5c

def hexDigit (n : Nat) : Nat := if n < 10 then 0x30 + n else 0x61 + (n - 10)

/-- Body of a JSON string for a Go string, with HTML escaping on. -/
def appendString (short : Bool) : Nat → Bytes → Bytes
  | 0, _ => []
  | _ + 1, [] => []
  | fuel + 1, b :: rest =>
    if b < 0x80 then
      if htmlSafe b then b :: appendString short fuel rest
      else if b == 0x5c || b == 0x22 then 0x5c :: b :: appendString short fuel rest
      else if b == 0x08 && short then 0x5c :: 0x62 :: appendString short fuel rest
      else if b == 0x0c && short then 0x5c :: 0x66 :: appendString short fuel rest
      else if b == 0x0a then 0x5c :: 0x6e :: appendString short fuel rest
      else if b == 0x0d then 0x5c :: 0x72 :: appendString short fuel rest
      else if b == 0x09 then 0x5c :: 0x74 :: appendString short fuel rest
      else [0x5c, 0x75, 0x30, 0x30, hexDigit (b / 16), hexDigit (b % 16)] ++
        appendString short fuel rest
    else if utf8Width (b :: rest) = 0 then
      [0x5c, 0x75, 0x66, 0x66, 0x66, 0x64] ++ appendString short fuel rest
    else if (b :: rest).take 3 = [0xe2, 0x80, 0xa8] then
      [0x5c, 0x75, 0x32, 0x30, 0x32, 0x38] ++ appendString short fuel (rest.drop 2)
    else if (b :: rest).take 3 = [0xe2, 0x80, 0xa9] then
      [0x5c, 0x75, 0x32, 0x30, 0x32, 0x39] ++ appendString short fuel (rest.drop 2)
    else (b :: rest).take (utf8Width (b :: rest)) ++
      appendString short fuel ((b :: rest).drop (utf8Width (b :: rest)))

def encodeString (short : Bool) (s : Bytes) : Bytes :=
  0x22 :: appendString short s.length s ++ [0x22]

mutual
/-- Encoding of an `interface{}` value by `json.Marshal`. -/
def encodeValue (fmt : Float64 → Bytes) (short : Bool) : GoVal → Bytes
  | .nil => [0x6e, 0x75, 0x6c, 0x6c]
  | .bool true => [0x74, 0x72, 0x75, 0x65]
  | .bool false => [0x66, 0x61, 0x6c, 0x73, 0x65]
  | .float64 f => encodeFloat fmt f
  | .string s => encodeString short s
  | .slice xs => 0x5b :: encodeElements fmt short xs ++ [0x5d]
  | .map kvs => 0x7b :: encodeEntries fmt short kvs ++ [0x7d]
def encodeElements (fmt : Float64 → Bytes) (short : Bool) : List GoVal → Bytes
  | [] => []
  | [x] => encodeValue fmt short x
  | x :: y :: rest => encodeValue fmt short x ++ 0x2c :: encodeElements fmt short (y :: rest)
def encodeEntries (fmt : Float64 → Bytes) (short : Bool) : List (Bytes × GoVal) → Bytes
  | [] => []
  | [(k, x)] => encodeString short k ++ 0x3a :: encodeValue fmt short x
  | (k, x) :: y :: rest =>
    encodeString short k ++ 0x3a :: encodeValue fmt short x ++
      0x2c :: encodeEntries fmt short (y :: rest)
end


/-! ## net/http and net/url -/

/-- An outgoing `http.Request`, as far as the sink sets it. -/
structure Request where
  method : String
  url : Bytes
  header : List (String × Bytes)
  body : Bytes
deriving DecidableEq, Repr

/-- What `http.DefaultClient.Do` returns: an error, or a response with its status code. -/
inductive Outcome where
  | failure (cause : String)
  | response (statusCode : Nat)
deriving DecidableEq, Repr

/-- The exchanges performed so far, oldest first: each request handed to `Do` with
the outcome it got. -/
abbrev World := List (Request × Outcome)

/-- Behaviour of the Go runtime and of the network that the sink relies on and that is
left open: the shortest-digits float formatting of `strconv` away from the integers
below `2^53`, the release-dependent escaping of backspace and form feed by
`encoding/json`, the verdict of `url.Parse` on a URL without control bytes, and the
outcome of `http.DefaultClient.Do` given the exchanges so far. -/
structure Runtime where
  formatFloat : Float64 → Bytes
  shortControlEscapes : Bool
  urlParses : Bytes → Bool
  roundTrip : World → Request → Outcome

inductive MarshalError where
  | unsupportedValue
deriving DecidableEq, Repr

/-- Encoding of one element of the batch: `null` for the nil map. -/
def encodeRecord (rt : Runtime) : Record → Bytes
  | none => [0x6e, 0x75, 0x6c, 0x6c]
  | some m => encodeValue rt.formatFloat rt.shortControlEscapes (.map m)

def encodeRecords (rt : Runtime) : List Record → Bytes
  | [] => []
  | [r] => encodeRecord rt r
  | r :: r1 :: rest => encodeRecord rt r ++ 0x2c :: encodeRecords rt (r1 :: rest)

/-- The call `json.Marshal(s.messages)`; a nil slice encodes as `null`. -/
def jsonMarshal (rt : Runtime) : List Record → Except MarshalError Bytes
  | [] => .ok [0x6e, 0x75, 0x6c, 0x6c]
  | r :: rest => .ok (0x5b :: encodeRecords rt (r :: rest) ++ [0x5d])

def isControlByte (b : Nat) : Bool := b < 0x20 || b == 0x7f

/-- The first check of `url.Parse`: a control byte before the fragment. -/
def urlHasControlByte (url : Bytes) : Bool :=
  (url.takeWhile fun b => b != 0x23).any isControlByte

inductive RequestError where
  | invalidControlCharacter
  | parseError
deriving DecidableEq, Repr

/-- The call `http.NewRequest(method, url, body)` for a valid method: it fails exactly
when `url.Parse` rejects the URL. -/
def newRequest (rt : Runtime) (method : String) (url body : Bytes) :
    Except RequestError Request :=
  if urlHasControlByte url then .error .invalidControlCharacter
  else if rt.urlParses url then .ok ⟨method, url, [], body⟩
  else .error .parseError

/-- The method `Header.Set` for a key in canonical form. -/
def headerSet (h : List (String × Bytes)) (key : String) (value : Bytes) :
    List (String × Bytes) :=
  (h.filter fun kv => kv.1 != key) ++ [(key, value)]

def base64Char (n : Nat) : Nat :=
  if n < 26 then 0x41 + n else if n < 52 then 0x61 + (n - 26)
  else if n < 62 then 0x30 + (n - 52) else if n = 62 then 0x2b else 0x2f

/-- The standard base64 encoding, with padding. -/
def base64 : Bytes → Bytes
  | a :: b :: c :: rest =>
    base64Char (a / 4) :: base64Char (a % 4 * 16 + b / 16) ::
      base64Char (b % 16 * 4 + c / 64) :: base64Char (c % 64) :: base64 rest
  | [a, b] => [base64Char (a / 4), base64Char (a % 4 * 16 + b / 16), base64Char (b % 16 * 4), 0x3d]
  | [a] => [base64Char (a / 4), base64Char (a % 4 * 16), 0x3d, 0x3d]
  | [] => []

/-- Value of the `Authorization` header for HTTP Basic credentials. -/
def basicAuth (username password : Bytes) : Bytes :=
  ascii "Basic " ++ base64 (username ++ 0x3a :: password)

def Request.SetBasicAuth (req : Request) (username password : Bytes) : Request :=
  { req with header := headerSet req.header "Authorization" (basicAuth username password) }

def Request.SetHeader (req : Request) (key : String) (value : Bytes) : Request :=
  { req with header := headerSet req.header key value }

def StatusOK : Nat := 200

/-- A parsed `url.URL`, as far as the factory reads it. -/
structure URL where
  Host : Bytes
  Path : Bytes
  RawQuery : Bytes
deriving DecidableEq, Repr

def splitOnByte (sep : Nat) : Bytes → List Bytes
  | [] => [[]]
  | c :: rest =>
    if c = sep then [] :: splitOnByte sep rest
    else match splitOnByte sep rest with
      | [] => [[c]]
      | seg :: segs => (c :: seg) :: segs

/-- The function `strings.Cut`, without its flag: the parts before and after the first
`sep`. -/
def cutByte (sep : Nat) : Bytes → Bytes × Bytes
  | [] => ([], [])
  | c :: rest => if c = sep then ([], rest) else ((c :: (cutByte sep rest).1), (cutByte sep rest).2)

/-- The function `url.QueryUnescape`: `%XX` to a byte, `+` to a space; `none` on a
percent sign that two hex digits do not follow. -/
def queryUnescape : Bytes → Option Bytes
  | [] => some []
  | 0x25 :: a :: b :: rest =>
    if isHex a && isHex b then (queryUnescape rest).map fun r => (hexVal a * 16 + hexVal b) :: r
    else none
  | c :: rest =>
    if c = 0x25 then none
    else (queryUnescape rest).map fun r => (if c = 0x2b then 0x20 else c) :: r

/-- One `key=value` segment of a query; segments that are empty, hold a semicolon or
do not unescape are dropped. -/
def parseQuerySegment (seg : Bytes) : List (Bytes × Bytes) :=
  if seg.contains 0x3b then []
  else if seg = [] then []
  else match queryUnescape (cutByte 0x3d seg).1, queryUnescape (cutByte 0x3d seg).2 with
    | some k, some v => [(k, v)]
    | _, _ => []

/-- The method `URL.Query`: the pairs of the query string in the order they appear. -/
def URL.Query (u : URL) : List (Bytes × Bytes) :=
  (splitOnByte 0x26 u.RawQuery).flatMap parseQuerySegment

/-- The method `Values.Get`: the first value of the key, the empty string when absent. -/
def valuesGet : List (Bytes × Bytes) → Bytes → Bytes
  | [], _ => []
  | (k, v) :: rest, key => if k = key then v else valuesGet rest key

/-! ## The sink -/

structure OpenObserveSink where
  url : Bytes
  username : Bytes
  password : Bytes
  messages : List Record

/-- The errors the sink returns, one constructor for each `fmt.Errorf` of `sink.go`. -/
inductive SinkError where
  | unmarshalFailed (cause : UnmarshalError)
  | marshalFailed (cause : MarshalError)
  | newRequestFailed (cause : RequestError)
  | doFailed (cause : String)
  | unexpectedStatus (statusCode : Nat) (url : Bytes) (body : Bytes)
deriving DecidableEq, Repr

/-- Result of `Sync` and `Close`: the returned error, the sink and the exchanges after
the call. -/
structure SyncResult where
  err : Option SinkError
  sink : OpenObserveSink
  world : World

/-- Result of `Write`: the returned count and error, the sink and the exchanges after
the call. -/
structure WriteResult where
  n : Nat
  err : Option SinkError
  sink : OpenObserveSink
  world : World

def OpenObserveSink.Sync (rt : Runtime) (s : OpenObserveSink) (w : World) : SyncResult :=
  if s.messages.length = 0 then ⟨none, s, w⟩
  else
    match jsonMarshal rt s.messages with
    | .error e => ⟨some (.marshalFailed e), s, w⟩
    | .ok data =>
      match newRequest rt "POST" s.url data with
      | .error e => ⟨some (.newRequestFailed e), s, w⟩
      | .ok req0 =>
        let req := (req0.SetBasicAuth s.username s.password).SetHeader "Content-Type"
          (ascii "application/json")
        match rt.roundTrip w req with
        | .failure e => ⟨some (.doFailed e), s, w ++ [(req, .failure e)]⟩
        | .response statusCode =>
          if statusCode ≠ StatusOK then
            ⟨some (.unexpectedStatus statusCode s.url data), s,
              w ++ [(req, .response statusCode)]⟩
          else ⟨none, { s with messages := [] }, w ++ [(req, .response statusCode)]⟩

def OpenObserveSink.Write (rt : Runtime) (s : OpenObserveSink) (w : World) (p : Bytes) :
    WriteResult :=
  match jsonUnmarshal p with
  | .error e => ⟨0, some (.unmarshalFailed e), s, w⟩
  | .ok msg =>
    let r := OpenObserveSink.Sync rt { s with messages := s.messages ++ [msg] } w
    ⟨p.length, r.err, r.sink, r.world⟩

def OpenObserveSink.Close (rt : Runtime) (s : OpenObserveSink) (w : World) : SyncResult :=
  OpenObserveSink.Sync rt s w

def New (url username password : Bytes) : Except SinkError OpenObserveSink :=
  .ok { url := url, username := username, password := password, messages := [] }

/-- Result of the sink factory: the process ended by `log.Fatal`, or the returned sink
or error. -/
inductive FactoryResult where
  | fatal (msg : String)
  | sink (s : OpenObserveSink)
  | error (msg : String)

/-- The function that `init` registers with `zap.RegisterSink` for the scheme `oo`. -/
def sinkFactory (u : URL) : FactoryResult :=
  let addr := u.Host
  let path := u.Path
  let proto := valuesGet u.Query (ascii "proto")
  if proto = [] then .fatal "missing proto"
  else
    let username := valuesGet u.Query (ascii "username")
    if username = [] then .fatal "missing username"
    else
      let password := valuesGet u.Query (ascii "password")
      if password = [] then .fatal "missing password"
      else
        let url := proto ++ ascii "://" ++ addr ++ path
        match New url username password with
        | .error _ => .error "init failed"
        | .ok sink => .sink sink

/-! ## Runs of the sink -/

/-- A call on the sink. -/
inductive Op where
  | write (p : Bytes)
  | sync
  | close

/-- One call on the sink, from a sink state and the exchanges so far. -/
def step (rt : Runtime) (st : OpenObserveSink × World) : Op → OpenObserveSink × World
  | .write p => ((st.1.Write rt st.2 p).sink, (st.1.Write rt st.2 p).world)
  | .sync => ((st.1.Sync rt st.2).sink, (st.1.Sync rt st.2).world)
  | .close => ((st.1.Close rt st.2).sink, (st.1.Close rt st.2).world)

/-- A sequence of calls, one after the other. -/
def run (rt : Runtime) : List Op → OpenObserveSink × World → OpenObserveSink × World
  | [], st => st
  | op :: ops, st => run rt ops (step rt st op)

/-- The record a call queues: the decoded input of a `Write` that parses. -/
def acceptedBy : Op → List Record
  | .write p =>
    match jsonUnmarshal p with
    | .ok msg => [msg]
    | .error _ => []
  | _ => []

/-- The batch after a call, told from what the call shows outside: the records queued
so far, the one this call accepts added, and nothing once the call has had an exchange
answered with status 200. -/
def pendingAfterStep (rt : Runtime) (st : OpenObserveSink × World) (op : Op)
    (pending : List Record) : List Record :=
  if (step rt st op).2.length = st.2.length + 1 ∧
      ((step rt st op).2.getLast?).map Prod.snd = some (.response StatusOK) then []
  else pending ++ acceptedBy op

/-- The records accepted since the last exchange answered with status 200, in the
order of arrival, over a sequence of calls. -/
def pendingAfter (rt : Runtime) :
    List Op → OpenObserveSink × World → List Record → List Record
  | [], _, pending => pending
  | op :: ops, st, pending =>
    pendingAfter rt ops (step rt st op) (pendingAfterStep rt st op pending)

/-- Repeated `Sync`, each call starting from the state the one before left. -/
def syncTimes (rt : Runtime) : Nat → OpenObserveSink × World → OpenObserveSink × World
  | 0, st => st
  | n + 1, st => syncTimes rt n ((st.1.Sync rt st.2).sink, (st.1.Sync rt st.2).world)

/-- The request `Sync` builds for a sink and a body. -/
def flushRequest (s : OpenObserveSink) (body : Bytes) : Request :=
  ⟨"POST", s.url,
    [("Authorization", basicAuth s.username s.password),
     ("Content-Type", ascii "application/json")], body⟩

/-! ## Example values -/

/-- A runtime whose endpoint answers every request with status 200. -/
def alwaysOK : Runtime := ⟨fun _ => [], true, fun _ => true, fun _ _ => .response 200⟩

/-- A runtime whose endpoint answers every request with status 500. -/
def alwaysServerError : Runtime := ⟨fun _ => [], true, fun _ => true, fun _ _ => .response 500⟩

/-- The sink of the example in `sink.go`, with nothing queued. -/
def exampleSink : OpenObserveSink :=
  ⟨ascii "http://localhost:5080/api/default/quickstart1/_json", ascii "root@example.com",
    ascii "Complexpass#123", []⟩

/-- The sink of the example with a given pending batch. -/
def sinkHolding (ms : List Record) : OpenObserveSink := { exampleSink with messages := ms }

/-- A sink whose destination URL holds the control byte 0x7f, with one record queued. -/
def sinkBadUrl : OpenObserveSink :=
  ⟨ascii "http://localhost:5080/api/\x7f", ascii "root@example.com", ascii "Complexpass#123",
    [some [(ascii "a", .float64 ⟨false, 2 ^ 52, -52⟩)]]⟩

/-- The record decoded from the text `{"a":1}`. -/
def recordA : Record := some [(ascii "a", .float64 ⟨false, 2 ^ 52, -52⟩)]


/-! ## Valid JSON objects -/

/-- Whether the magnitude of a number literal is zero or below `2^1024 - 2^970`, so
that it rounds to a finite float64. -/
def NumLit.fitsFloat64 (lit : NumLit) : Bool :=
  lit.mant == 0 ||
    (if 0 ≤ lit.exp10 then decide (lit.mant * 10 ^ lit.exp10.toNat < float64Overflow)
     else decide (lit.mant < float64Overflow * 10 ^ (-lit.exp10).toNat))

mutual
/-- Whether every number literal of a parsed value fits a float64. -/
def numbersFit : JSON → Bool
  | .num n => n.fitsFloat64
  | .arr xs => elementsFit xs
  | .obj kvs => membersFit kvs
  | _ => true
def elementsFit : List JSON → Bool
  | [] => true
  | x :: xs => numbersFit x && elementsFit xs
def membersFit : List (Bytes × JSON) → Bool
  | [] => true
  | (_, x) :: rest => numbersFit x && membersFit rest
end

/-- Whether the bytes are a JSON text whose value is an object; as for the scanner of
`encoding/json`, arrays and objects nest at most `maxNestingDepth` deep. -/
def isJSONObject (p : Bytes) : Prop := ∃ kvs, parseJSON p = some (.obj kvs)

/-- Holds when, from fuel `f` on, more fuel does not change a successful parse. -/
def FuelStable {α : Type} (parse : Nat → Nat → Bytes → Option (α × Bytes)) (f : Nat)
    (slack : Nat) : Prop :=
  ∀ d inp v rest, parse f d inp = some (v, rest) →
    rest.length + slack ≤ inp.length ∧
    ∀ g, inp.length - rest.length + 1 ≤ g → parse g d inp = some (v, rest)

/-- The URL of the registration URI `oo:///api/default/quickstart1/_json?proto=http&username=u&password=p`,
which has no host. -/
def urlWithoutHost : URL :=
  ⟨[], ascii "/api/default/quickstart1/_json", ascii "proto=http&username=u&password=p"⟩

/-- The URL of the registration URI
`oo://localhost:5080/api/default/quickstart1/_json?proto=http&username=root%40example.com&password=Complexpass%23123`. -/
def urlExample : URL :=
  ⟨ascii "localhost:5080", ascii "/api/default/quickstart1/_json",
    ascii "proto=http&username=root%40example.com&password=Complexpass%23123"⟩

/-- The URL of the example with the path `/api/%7f`, which `url.Parse` decodes. -/
def urlControlByte : URL :=
  ⟨ascii "localhost:5080", ascii "/api/\x7f",
    ascii "proto=http&username=root%40example.com&password=Complexpass%23123"⟩

/-- The URL of the example without its `password` parameter. -/
def urlWithoutPassword : URL :=
  ⟨ascii "localhost:5080", ascii "/api/default/quickstart1/_json",
    ascii "proto=http&username=root%40example.com"⟩

/-! # Theorems -/

/-! ## The parser consumes its input -/

theorem skipSpace_length_le : ∀ l : Bytes, (skipSpace l).length ≤ l.length
  | [] => Nat.le_refl _
  | c :: rest => by
    unfold skipSpace
    split
    · exact Nat.le_succ_of_le (skipSpace_length_le rest)
    · exact Nat.le_refl _

theorem map_pair_some {α β : Type} (o : Option (α × Bytes)) (f : α → β) (v : β)
    (rest : Bytes) (h : o.map (fun x => (f x.1, x.2)) = some (v, rest)) :
    ∃ a, o = some (a, rest) ∧ f a = v := by
  cases o with
  | none => simp at h
  | some x =>
    obtain ⟨a, r⟩ := x
    simp only [Option.map_some', Option.some.injEq, Prod.mk.injEq] at h
    exact ⟨a, by rw [h.2], h.1⟩

theorem scanString_length_le :
    ∀ (inp s rest : Bytes), scanString inp = some (s, rest) → rest.length ≤ inp.length := by
  intro inp
  induction inp using scanString.induct with
  | case1 => intro s rest h; simp [scanString] at h
  | case2 a b c d rest0 hhex ih =>
    intro s rest h
    simp only [scanString, hhex, if_true] at h
    obtain ⟨s1, h1, _⟩ := map_pair_some (scanString rest0)
      (fun x => 0x5c :: 0x75 :: a :: b :: c :: d :: x) s rest h
    have := ih s1 rest h1
    simp only [List.length_cons]
    omega
  | case3 a b c d rest0 hhex =>
    intro s rest h
    simp [scanString, hhex] at h
  | case4 e rest0 hne hesc ih =>
    intro s rest h
    rw [scanString] at h
    · simp only [hesc, if_true] at h
      obtain ⟨s1, h1, _⟩ := map_pair_some (scanString rest0) (fun x => 0x5c :: e :: x) s rest h
      have := ih s1 rest h1
      simp only [List.length_cons]
      omega
    · exact hne
  | case5 e rest0 hne hesc =>
    intro s rest h
    rw [scanString] at h
    · simp [hesc] at h
    · exact hne
  | case6 c rest0 hne1 hne2 hq =>
    intro s rest h
    rw [scanString] at h
    · simp only [hq, if_true, Option.some.injEq, Prod.mk.injEq] at h
      rw [← h.2]
      simp
    · exact hne1
    · exact hne2
  | case7 c rest0 hne1 hne2 hq hbad =>
    intro s rest h
    rw [scanString] at h
    · simp [hq, hbad] at h
    · exact hne1
    · exact hne2
  | case8 c rest0 hne1 hne2 hq hbad ih =>
    intro s rest h
    rw [scanString] at h
    · simp only [hq, hbad, if_false] at h
      obtain ⟨s1, h1, _⟩ := map_pair_some (scanString rest0) (fun x => c :: x) s rest h
      have := ih s1 rest h1
      simp only [List.length_cons]
      omega
    · exact hne1
    · exact hne2

theorem takeDigits_length_le : ∀ l : Bytes, (takeDigits l).2.length ≤ l.length
  | [] => Nat.le_refl _
  | c :: rest => by
    unfold takeDigits
    split
    · exact Nat.le_succ_of_le (takeDigits_length_le rest)
    · exact Nat.le_refl _

theorem scanInt_length_le (inp : Bytes) (ds : List Nat) (rest : Bytes)
    (h : scanInt inp = some (ds, rest)) : rest.length ≤ inp.length := by
  unfold scanInt at h
  split at h
  · cases h
    simp
  · rename_i c rest0 _
    split at h
    · have h1 := Option.some.inj h
      have := takeDigits_length_le (c :: rest0)
      rw [h1] at this
      exact this
    · cases h
  · cases h

theorem scanFrac_length_le (inp : Bytes) (ds : List Nat) (rest : Bytes)
    (h : scanFrac inp = some (ds, rest)) : rest.length ≤ inp.length := by
  unfold scanFrac at h
  split at h
  · rename_i rest0
    split at h
    · cases h
    · rename_i ds1 r1 _ heq
      cases h
      have := takeDigits_length_le rest0
      rw [heq] at this
      simp only [List.length_cons]
      exact Nat.le_succ_of_le this
  · cases h
    exact Nat.le_refl _

theorem scanExpDigits_length_le (negative : Bool) (inp : Bytes) (e : Int) (rest : Bytes)
    (h : scanExpDigits negative inp = some (e, rest)) : rest.length ≤ inp.length := by
  unfold scanExpDigits at h
  split at h
  · cases h
  · rename_i ds1 r1 _ heq
    cases h
    have := takeDigits_length_le inp
    rw [heq] at this
    exact this

theorem scanExp_length_le (inp : Bytes) (e : Int) (rest : Bytes)
    (h : scanExp inp = some (e, rest)) : rest.length ≤ inp.length := by
  unfold scanExp at h
  split at h
  all_goals first
    | exact Nat.le_succ_of_le (Nat.le_succ_of_le (scanExpDigits_length_le _ _ _ _ h))
    | exact Nat.le_succ_of_le (scanExpDigits_length_le _ _ _ _ h)
    | exact Nat.le_of_eq (congrArg List.length (Prod.mk.inj (Option.some.inj h)).2).symm

theorem scanUnsigned_length_le (negative : Bool) (inp : Bytes) (n : NumLit) (rest : Bytes)
    (h : scanUnsigned negative inp = some (n, rest)) : rest.length ≤ inp.length := by
  unfold scanUnsigned at h
  split at h
  · cases h
  · rename_i ip r1 h1
    split at h
    · cases h
    · rename_i fp r2 h2
      split at h
      · cases h
      · rename_i e r3 h3
        cases h
        have := scanInt_length_le _ _ _ h1
        have := scanFrac_length_le _ _ _ h2
        have := scanExp_length_le _ _ _ h3
        omega

theorem scanNumber_length_le (inp : Bytes) (n : NumLit) (rest : Bytes)
    (h : scanNumber inp = some (n, rest)) : rest.length ≤ inp.length := by
  unfold scanNumber at h
  split at h
  · have := scanUnsigned_length_le _ _ _ _ h
    simp only [List.length_cons]
    omega
  · exact scanUnsigned_length_le _ _ _ _ h

theorem scanLiteral_length_le (inp : Bytes) (v : JSON) (rest : Bytes)
    (h : scanLiteral inp = some (v, rest)) : rest.length ≤ inp.length := by
  unfold scanLiteral at h
  split at h
  · rename_i rest0
    obtain ⟨s1, h1, _⟩ := map_pair_some (scanString rest0) JSON.str v rest h
    have := scanString_length_le _ _ _ h1
    simp only [List.length_cons]
    omega
  · cases h
    simp only [List.length_cons]
    omega
  · cases h
    simp only [List.length_cons]
    omega
  · cases h
    simp only [List.length_cons]
    omega
  · obtain ⟨s1, h1, _⟩ := map_pair_some (scanNumber inp) JSON.num v rest h
    exact scanNumber_length_le _ _ _ h1

theorem parseValue_stable (f : Nat) (hm : FuelStable parseMembers f 1)
    (he : FuelStable parseElements f 1) : FuelStable parseValue (f + 1) 0 := by
  intro d inp v rest h
  rw [parseValue] at h
  have hsp := skipSpace_length_le inp
  split at h
  · rename_i rest0 heq
    rw [heq] at hsp
    simp only [List.length_cons] at hsp
    split at h
    · cases h
    · rename_i hdepth
      have hsp0 := skipSpace_length_le rest0
      split at h
      · rename_i r heq2
        cases h
        rw [heq2] at hsp0
        simp only [List.length_cons] at hsp0
        refine ⟨by omega, ?_⟩
        intro g hg
        obtain ⟨g1, rfl⟩ : ∃ g1, g = g1 + 1 := ⟨g - 1, by omega⟩
        rw [parseValue]
        simp only [heq, hdepth, if_false, heq2]
      · rename_i r hne
        cases hsub : parseMembers f (d + 1) (skipSpace rest0) with
        | none => rw [hsub] at h; cases h
        | some x =>
          obtain ⟨kvs, r1⟩ := x
          rw [hsub] at h
          cases h
          obtain ⟨hlen, hfuel⟩ := hm _ _ _ _ hsub
          refine ⟨by omega, ?_⟩
          intro g hg
          obtain ⟨g1, rfl⟩ : ∃ g1, g = g1 + 1 := ⟨g - 1, by omega⟩
          rw [parseValue]
          simp only [heq, hdepth, if_false]
          rw [hfuel g1 (by omega)]
          rfl
  · rename_i rest0 heq
    rw [heq] at hsp
    simp only [List.length_cons] at hsp
    split at h
    · cases h
    · rename_i hdepth
      have hsp0 := skipSpace_length_le rest0
      split at h
      · rename_i r heq2
        cases h
        rw [heq2] at hsp0
        simp only [List.length_cons] at hsp0
        refine ⟨by omega, ?_⟩
        intro g hg
        obtain ⟨g1, rfl⟩ : ∃ g1, g = g1 + 1 := ⟨g - 1, by omega⟩
        rw [parseValue]
        simp only [heq, hdepth, if_false, heq2]
      · rename_i r hne
        cases hsub : parseElements f (d + 1) (skipSpace rest0) with
        | none => rw [hsub] at h; cases h
        | some x =>
          obtain ⟨xs, r1⟩ := x
          rw [hsub] at h
          cases h
          obtain ⟨hlen, hfuel⟩ := he _ _ _ _ hsub
          refine ⟨by omega, ?_⟩
          intro g hg
          obtain ⟨g1, rfl⟩ : ∃ g1, g = g1 + 1 := ⟨g - 1, by omega⟩
          rw [parseValue]
          simp only [heq, hdepth, if_false]
          rw [hfuel g1 (by omega)]
          rfl
  · rename_i r hne1 hne2
    have hlit := scanLiteral_length_le _ _ _ h
    refine ⟨by omega, ?_⟩
    intro g hg
    obtain ⟨g1, rfl⟩ : ∃ g1, g = g1 + 1 := ⟨g - 1, by omega⟩
    rw [parseValue]
    split
    · rename_i r2 heq3
      exact absurd heq3 (hne1 r2)
    · rename_i r2 heq3
      exact absurd heq3 (hne2 r2)
    · exact h

theorem parseElements_stable (f : Nat) (hv : FuelStable parseValue f 0)
    (he : FuelStable parseElements f 1) : FuelStable parseElements (f + 1) 1 := by
  intro d inp xs rest h
  rw [parseElements] at h
  split at h
  · cases h
  · rename_i v r hval
    obtain ⟨hlen, hfuel⟩ := hv _ _ _ _ hval
    have hsp := skipSpace_length_le r
    split at h
    · rename_i r1 heq
      rw [heq] at hsp
      simp only [List.length_cons] at hsp
      cases hsub : parseElements f d r1 with
      | none => rw [hsub] at h; cases h
      | some x =>
        obtain ⟨xs1, r2⟩ := x
        rw [hsub] at h
        cases h
        obtain ⟨hlen2, hfuel2⟩ := he _ _ _ _ hsub
        refine ⟨by omega, ?_⟩
        intro g hg
        obtain ⟨g1, rfl⟩ : ∃ g1, g = g1 + 1 := ⟨g - 1, by omega⟩
        rw [parseElements]
        rw [hfuel g1 (by omega)]
        simp only [heq]
        rw [hfuel2 g1 (by omega)]
        rfl
    · rename_i r1 heq
      rw [heq] at hsp
      simp only [List.length_cons] at hsp
      cases h
      refine ⟨by omega, ?_⟩
      intro g hg
      obtain ⟨g1, rfl⟩ : ∃ g1, g = g1 + 1 := ⟨g - 1, by omega⟩
      rw [parseElements]
      rw [hfuel g1 (by omega)]
      simp only [heq]
    · cases h

theorem parseMembers_stable (f : Nat) (hv : FuelStable parseValue f 0)
    (hm : FuelStable parseMembers f 1) : FuelStable parseMembers (f + 1) 1 := by
  intro d inp kvs rest h
  rw [parseMembers] at h
  have hsp := skipSpace_length_le inp
  split at h
  · rename_i r0 heq0
    rw [heq0] at hsp
    simp only [List.length_cons] at hsp
    split at h
    · cases h
    · rename_i k r1 hkey
      have hk := scanString_length_le _ _ _ hkey
      have hsp1 := skipSpace_length_le r1
      split at h
      · rename_i r2 heq2
        rw [heq2] at hsp1
        simp only [List.length_cons] at hsp1
        split at h
        · cases h
        · rename_i v r3 hval
          obtain ⟨hlen, hfuel⟩ := hv _ _ _ _ hval
          have hsp3 := skipSpace_length_le r3
          split at h
          · rename_i r4 heq4
            rw [heq4] at hsp3
            simp only [List.length_cons] at hsp3
            cases hsub : parseMembers f d r4 with
            | none => rw [hsub] at h; cases h
            | some x =>
              obtain ⟨kvs1, r5⟩ := x
              rw [hsub] at h
              cases h
              obtain ⟨hlen5, hfuel5⟩ := hm _ _ _ _ hsub
              refine ⟨by omega, ?_⟩
              intro g hg
              obtain ⟨g1, rfl⟩ : ∃ g1, g = g1 + 1 := ⟨g - 1, by omega⟩
              rw [parseMembers]
              simp only [heq0, hkey, heq2]
              rw [hfuel g1 (by omega)]
              simp only [heq4]
              rw [hfuel5 g1 (by omega)]
              rfl
          · rename_i r4 heq4
            rw [heq4] at hsp3
            simp only [List.length_cons] at hsp3
            cases h
            refine ⟨by omega, ?_⟩
            intro g hg
            obtain ⟨g1, rfl⟩ : ∃ g1, g = g1 + 1 := ⟨g - 1, by omega⟩
            rw [parseMembers]
            simp only [heq0, hkey, heq2]
            rw [hfuel g1 (by omega)]
            simp only [heq4]
          · cases h
      · cases h
  · cases h

theorem parse_stable : ∀ f : Nat,
    FuelStable parseValue f 0 ∧ FuelStable parseElements f 1 ∧ FuelStable parseMembers f 1
  | 0 => by
    refine ⟨?_, ?_, ?_⟩
    · intro d inp v rest h
      rw [parseValue] at h
      cases h
    · intro d inp v rest h
      rw [parseElements] at h
      cases h
    · intro d inp v rest h
      rw [parseMembers] at h
      cases h
  | f + 1 => by
    obtain ⟨hv, he, hm⟩ := parse_stable f
    exact ⟨parseValue_stable f hm he, parseElements_stable f hv he,
      parseMembers_stable f hv hm⟩

/-- The fuel that `parseJSON` gives the parser is enough: more fuel gives the same
result. -/
theorem parseValue_fuel_enough (data : Bytes) (fuel : Nat) (h : data.length + 1 ≤ fuel) :
    parseValue fuel 0 data = parseValue (data.length + 1) 0 data := by
  cases h1 : parseValue (data.length + 1) 0 data with
  | some x =>
    obtain ⟨v, rest⟩ := x
    exact ((parse_stable _).1 _ _ _ _ h1).2 fuel (by omega)
  | none =>
    cases h2 : parseValue fuel 0 data with
    | none => rfl
    | some x =>
      obtain ⟨v, rest⟩ := x
      have := ((parse_stable _).1 _ _ _ _ h2).2 (data.length + 1) (by omega)
      rw [h1] at this
      cases this
/-! ## Lemmas on `Sync` -/

theorem jsonMarshal_ok (rt : Runtime) (ms : List Record) :
    ∃ data, jsonMarshal rt ms = .ok data := by
  cases ms with
  | nil => exact ⟨_, rfl⟩
  | cons r rest => exact ⟨_, rfl⟩

theorem setHeaders_eq (rt : Runtime) (s : OpenObserveSink) (data : Bytes) (req0 : Request)
    (h : newRequest rt "POST" s.url data = .ok req0) :
    (req0.SetBasicAuth s.username s.password).SetHeader "Content-Type"
      (ascii "application/json") = flushRequest s data := by
  unfold newRequest at h
  split at h
  · cases h
  · split at h
    · cases h
      simp [Request.SetBasicAuth, Request.SetHeader, headerSet, flushRequest]
    · cases h

theorem sync_empty (rt : Runtime) (s : OpenObserveSink) (w : World) (h : s.messages = []) :
    s.Sync rt w = ⟨none, s, w⟩ := by
  simp [OpenObserveSink.Sync, h]

/-- The five ways a `Sync` can go. -/
theorem sync_cases (rt : Runtime) (s : OpenObserveSink) (w : World) :
    (s.messages = [] ∧ s.Sync rt w = ⟨none, s, w⟩) ∨
    (s.messages ≠ [] ∧ ∃ data e, jsonMarshal rt s.messages = .ok data ∧
      newRequest rt "POST" s.url data = .error e ∧
      s.Sync rt w = ⟨some (.newRequestFailed e), s, w⟩) ∨
    (s.messages ≠ [] ∧ ∃ data req0, jsonMarshal rt s.messages = .ok data ∧
      newRequest rt "POST" s.url data = .ok req0 ∧
      ((∃ e, rt.roundTrip w (flushRequest s data) = .failure e ∧
          s.Sync rt w = ⟨some (.doFailed e), s, w ++ [(flushRequest s data, .failure e)]⟩) ∨
       (∃ c, c ≠ StatusOK ∧ rt.roundTrip w (flushRequest s data) = .response c ∧
          s.Sync rt w = ⟨some (.unexpectedStatus c s.url data), s,
            w ++ [(flushRequest s data, .response c)]⟩) ∨
       (rt.roundTrip w (flushRequest s data) = .response StatusOK ∧
          s.Sync rt w = ⟨none, { s with messages := [] },
            w ++ [(flushRequest s data, .response StatusOK)]⟩))) := by
  by_cases hm : s.messages = []
  · exact Or.inl ⟨hm, sync_empty rt s w hm⟩
  · right
    have hlen : ¬ s.messages.length = 0 := by
      intro h0
      exact hm (List.length_eq_zero.mp h0)
    obtain ⟨data, hdata⟩ := jsonMarshal_ok rt s.messages
    cases hreq : newRequest rt "POST" s.url data with
    | error e =>
      left
      refine ⟨hm, data, e, hdata, hreq, ?_⟩
      simp [OpenObserveSink.Sync, hlen, hdata, hreq]
    | ok req0 =>
      right
      refine ⟨hm, data, req0, hdata, hreq, ?_⟩
      have hset := setHeaders_eq rt s data req0 hreq
      cases hout : rt.roundTrip w (flushRequest s data) with
      | failure e =>
        left
        refine ⟨e, rfl, ?_⟩
        simp [OpenObserveSink.Sync, hlen, hdata, hreq, hset, hout]
      | response c =>
        right
        by_cases hc : c = StatusOK
        · right
          subst hc
          refine ⟨rfl, ?_⟩
          simp [OpenObserveSink.Sync, hlen, hdata, hreq, hset, hout]
        · left
          refine ⟨c, hc, rfl, ?_⟩
          simp [OpenObserveSink.Sync, hlen, hdata, hreq, hset, hout, hc]

theorem append_singleton_ne_self {α : Type} (w : List α) (x : α) : w ++ [x] ≠ w := by
  intro h
  have := congrArg List.length h
  simp at this

/-! ## Flush -/

/-- C7: on a sink whose pending batch is empty, `Sync` returns no error, performs no
exchange and leaves the sink as it was; repeating it any number of times changes
nothing either. -/
theorem sync_empty_is_noop (rt : Runtime) (s : OpenObserveSink) (w : World)
    (h : s.messages = []) :
    s.Sync rt w = ⟨none, s, w⟩ ∧ ∀ n, syncTimes rt n (s, w) = (s, w) := by
  refine ⟨sync_empty rt s w h, ?_⟩
  intro n
  induction n with
  | zero => rfl
  | succ k ih =>
    simp only [syncTimes, sync_empty rt s w h]
    exact ih

theorem sync_empty_is_noop_witness :
    exampleSink.messages = [] ∧
      (exampleSink.Sync alwaysServerError [] = ⟨none, exampleSink, []⟩ ∧
        ∀ n, syncTimes alwaysServerError n (exampleSink, []) = (exampleSink, [])) :=
  ⟨rfl, sync_empty_is_noop alwaysServerError exampleSink [] rfl⟩

/-- C1: when the pending batch is not empty and the exchange of a `Sync`, if it has one,
is not answered with status 200 (it fails in transport or gets another status), `Sync`
returns an error and the pending batch is the same list as before. -/
theorem sync_failure_keeps_batch (rt : Runtime) (s : OpenObserveSink) (w : World)
    (hne : s.messages ≠ [])
    (hfail : ∀ req out, (s.Sync rt w).world = w ++ [(req, out)] → out ≠ .response StatusOK) :
    (s.Sync rt w).err ≠ none ∧ (s.Sync rt w).sink.messages = s.messages := by
  rcases sync_cases rt s w with ⟨h0, _⟩ | ⟨_, _, e, _, _, h⟩ | ⟨_, data, _, _, _, h⟩
  · exact absurd h0 hne
  · simp [h]
  · rcases h with ⟨e, _, h⟩ | ⟨c, _, _, h⟩ | ⟨_, h⟩
    · simp [h]
    · simp [h]
    · exact absurd rfl (hfail (flushRequest s data) (.response StatusOK) (by rw [h]))

theorem sync_failure_keeps_batch_witness :
    (sinkHolding [recordA]).messages ≠ [] ∧
    (∀ req out, ((sinkHolding [recordA]).Sync
        alwaysServerError []).world = [] ++ [(req, out)] → out ≠ .response StatusOK) ∧
    ((sinkHolding [recordA]).Sync
        alwaysServerError []).err ≠ none ∧
    ((sinkHolding [recordA]).Sync
        alwaysServerError []).sink.messages = [recordA] := by
  have h1 : (sinkHolding [recordA]).messages ≠ [] := by
    simp [sinkHolding]
  have h2 : ∀ req out, ((sinkHolding [recordA]).Sync
      alwaysServerError []).world = [] ++ [(req, out)] → out ≠ .response StatusOK := by
    intro req out h
    have h3 : ((sinkHolding [recordA]).Sync
      alwaysServerError []).world.map Prod.snd = [Outcome.response 500] := by decide
    rw [h] at h3
    simp at h3
    rw [h3]
    decide
  exact ⟨h1, h2, sync_failure_keeps_batch alwaysServerError _ [] h1 h2⟩

/-- C2: when the exchange of a `Sync` is answered with status 200, `Sync` returns no
error and the pending batch is empty afterwards, whatever it held. -/
theorem sync_success_drains_batch (rt : Runtime) (s : OpenObserveSink) (w : World)
    (req : Request) (h200 : (s.Sync rt w).world = w ++ [(req, .response StatusOK)]) :
    (s.Sync rt w).err = none ∧ (s.Sync rt w).sink.messages = [] := by
  rcases sync_cases rt s w with ⟨_, h⟩ | ⟨_, _, e, _, _, h⟩ | ⟨_, data, _, _, _, h⟩
  · rw [h] at h200
    exact absurd h200.symm (append_singleton_ne_self w _)
  · rw [h] at h200
    exact absurd h200.symm (append_singleton_ne_self w _)
  · rcases h with ⟨e, _, h⟩ | ⟨c, hc, _, h⟩ | ⟨_, h⟩
    · rw [h] at h200
      simp at h200
    · rw [h] at h200
      simp at h200
      exact absurd h200.2 hc
    · simp [h]

theorem sync_success_drains_batch_witness :
    ((sinkHolding [recordA, recordA]).Sync
        alwaysOK []).world =
      [] ++ [(flushRequest exampleSink (ascii "[\x7b\"a\":1\x7d,\x7b\"a\":1\x7d]"),
        .response StatusOK)] ∧
    ((sinkHolding [recordA, recordA]).Sync
        alwaysOK []).err = none ∧
    ((sinkHolding [recordA, recordA]).Sync
        alwaysOK []).sink.messages = [] :=
  ⟨by decide, sync_success_drains_batch alwaysOK (sinkHolding [recordA, recordA]) []
    (flushRequest exampleSink (ascii "[\x7b\"a\":1\x7d,\x7b\"a\":1\x7d]")) (by decide)⟩

/-! ## Append -/

/-- C5: when the input of a `Write` fails to decode, `Write` returns the unmarshal
error with count 0, the sink (and so its pending batch) is as before, and no exchange
takes place. -/
theorem write_rejected_changes_nothing (rt : Runtime) (s : OpenObserveSink) (w : World)
    (p : Bytes) (e : UnmarshalError) (h : jsonUnmarshal p = .error e) :
    (s.Write rt w p).err = some (.unmarshalFailed e) ∧ (s.Write rt w p).n = 0 ∧
      (s.Write rt w p).sink = s ∧ (s.Write rt w p).world = w := by
  simp [OpenObserveSink.Write, h]

theorem write_rejected_changes_nothing_witness :
    jsonUnmarshal (ascii "not-json") = .error .syntaxError ∧
    ((sinkHolding [recordA]).Write alwaysOK []
        (ascii "not-json")).err = some (.unmarshalFailed .syntaxError) ∧
    ((sinkHolding [recordA]).Write alwaysOK []
        (ascii "not-json")).n = 0 ∧
    ((sinkHolding [recordA]).Write alwaysOK []
        (ascii "not-json")).sink = sinkHolding [recordA] ∧
    ((sinkHolding [recordA]).Write alwaysOK []
        (ascii "not-json")).world = [] :=
  ⟨rfl, write_rejected_changes_nothing alwaysOK _ [] _ _ rfl⟩

/-- C6: when the input `p` of a `Write` decodes to a record, `Write` returns the length of
`p` as its count, and its error, sink and exchanges are those of the `Sync` made on the
sink with the record added at the end of the batch, whatever that `Sync` returns. -/
theorem write_count_and_error (rt : Runtime) (s : OpenObserveSink) (w : World) (p : Bytes)
    (msg : Record) (h : jsonUnmarshal p = .ok msg) :
    (s.Write rt w p).n = p.length ∧
      (s.Write rt w p).err =
        (({ s with messages := s.messages ++ [msg] } : OpenObserveSink).Sync rt w).err ∧
      (s.Write rt w p).sink =
        (({ s with messages := s.messages ++ [msg] } : OpenObserveSink).Sync rt w).sink ∧
      (s.Write rt w p).world =
        (({ s with messages := s.messages ++ [msg] } : OpenObserveSink).Sync rt w).world := by
  simp [OpenObserveSink.Write, h]

theorem write_count_and_error_witness :
    jsonUnmarshal (ascii "\x7b\"a\":1\x7d") = .ok recordA ∧
    (exampleSink.Write alwaysServerError [] (ascii "\x7b\"a\":1\x7d")).n = 7 ∧
    (exampleSink.Write alwaysServerError [] (ascii "\x7b\"a\":1\x7d")).err =
      some (.unexpectedStatus 500 exampleSink.url (ascii "[\x7b\"a\":1\x7d]")) := by
  have h := write_count_and_error alwaysServerError exampleSink [] (ascii "\x7b\"a\":1\x7d")
    recordA rfl
  exact ⟨rfl, h.1, by decide⟩

/-! ## The request of a flush -/

theorem encodeRecords_eq_intercalate (rt : Runtime) :
    ∀ ms : List Record,
      encodeRecords rt ms = List.intercalate [0x2c] (ms.map (encodeRecord rt))
  | [] => rfl
  | [r] => by simp [encodeRecords, List.intercalate, List.intersperse]
  | r :: r1 :: rest => by
    have ih := encodeRecords_eq_intercalate rt (r1 :: rest)
    simp only [encodeRecords, ih]
    simp [List.intercalate, List.intersperse]

/-- Counterexample to C3 as stated: a sink with a record queued and a control byte in
its destination URL, as the factory builds it from the path `/api/%7f`, performs no
exchange on `Sync`, which returns the error of `http.NewRequest`. -/
theorem sync_bad_url_sends_nothing :
    sinkFactory urlControlByte = .sink { sinkBadUrl with messages := [] } ∧
      (sinkBadUrl).messages ≠ [] ∧ (sinkBadUrl.Sync alwaysOK []).world = [] ∧
      (sinkBadUrl.Sync alwaysOK []).err =
        some (.newRequestFailed .invalidControlCharacter) :=
  ⟨rfl, List.cons_ne_nil _ _, by decide, by decide⟩

/-- C3, amended: for a sink whose pending batch is not empty and whose destination URL
`url.Parse` accepts, `Sync` performs exactly one exchange; its request is a POST to
the destination URL with the `Authorization` header of HTTP Basic for the configured
username and password, `Content-Type: application/json`, and as body the encodings of
all records of the batch, in order, separated by commas between brackets. -/
theorem sync_sends_whole_batch (rt : Runtime) (s : OpenObserveSink) (w : World)
    (hne : s.messages ≠ [])
    (hurl : urlHasControlByte s.url = false ∧ rt.urlParses s.url = true) :
    ∃ out, (s.Sync rt w).world =
      w ++ [((⟨"POST", s.url,
          [("Authorization", ascii "Basic " ++ base64 (s.username ++ 0x3a :: s.password)),
           ("Content-Type", ascii "application/json")],
          0x5b :: List.intercalate [0x2c] (s.messages.map (encodeRecord rt)) ++ [0x5d]⟩ :
          Request), out)] := by
  have hbody : jsonMarshal rt s.messages =
      .ok (0x5b :: List.intercalate [0x2c] (s.messages.map (encodeRecord rt)) ++ [0x5d]) := by
    cases hs : s.messages with
    | nil => exact absurd hs hne
    | cons r rest =>
      rw [← encodeRecords_eq_intercalate]
      rfl
  have hreq : ∀ data, newRequest rt "POST" s.url data = .ok ⟨"POST", s.url, [], data⟩ := by
    intro data
    simp [newRequest, hurl.1, hurl.2]
  rcases sync_cases rt s w with ⟨h0, _⟩ | ⟨_, data, e, _, hbad, _⟩ | ⟨_, data, _, hdata, _, h⟩
  · exact absurd h0 hne
  · rw [hreq data] at hbad
    cases hbad
  · rw [hbody] at hdata
    cases hdata
    rcases h with ⟨e, _, h⟩ | ⟨c, _, _, h⟩ | ⟨_, h⟩
    · exact ⟨_, by rw [h]; rfl⟩
    · exact ⟨_, by rw [h]; rfl⟩
    · exact ⟨_, by rw [h]; rfl⟩

theorem sync_sends_whole_batch_witness :
    (sinkHolding [recordA, none]).messages ≠ [] ∧
    (urlHasControlByte (sinkHolding [recordA, none]).url = false ∧
      alwaysOK.urlParses (sinkHolding [recordA, none]).url = true) ∧
    ∃ out, ((sinkHolding [recordA, none]).Sync alwaysOK []).world =
      [] ++ [((⟨"POST", ascii "http://localhost:5080/api/default/quickstart1/_json",
          [("Authorization", ascii "Basic " ++
              base64 (ascii "root@example.com" ++ 0x3a :: ascii "Complexpass#123")),
           ("Content-Type", ascii "application/json")],
          0x5b :: List.intercalate [0x2c]
            ([recordA, none].map (encodeRecord alwaysOK)) ++ [0x5d]⟩ : Request), out)] :=
  ⟨List.cons_ne_nil _ _, by decide,
    sync_sends_whole_batch alwaysOK (sinkHolding [recordA, none]) [] (List.cons_ne_nil _ _)
      (by decide)⟩

theorem basicAuth_example :
    basicAuth (ascii "root@example.com") (ascii "Complexpass#123") =
      ascii "Basic cm9vdEBleGFtcGxlLmNvbTpDb21wbGV4cGFzcyMxMjM=" := by
  decide

/-! ## Scenario A -/

theorem sync_ok (rt : Runtime) (s : OpenObserveSink) (w : World) (data : Bytes)
    (hne : s.messages ≠ []) (hdata : jsonMarshal rt s.messages = .ok data)
    (hurl : urlHasControlByte s.url = false ∧ rt.urlParses s.url = true)
    (h200 : rt.roundTrip w (flushRequest s data) = .response StatusOK) :
    s.Sync rt w = ⟨none, { s with messages := [] },
      w ++ [(flushRequest s data, .response StatusOK)]⟩ := by
  have hreq : newRequest rt "POST" s.url data = .ok ⟨"POST", s.url, [], data⟩ := by
    simp [newRequest, hurl.1, hurl.2]
  rcases sync_cases rt s w with ⟨h0, _⟩ | ⟨_, d, e, hd, hbad, _⟩ | ⟨_, d, _, hd, _, h⟩
  · exact absurd h0 hne
  · rw [hdata] at hd
    cases hd
    rw [hreq] at hbad
    cases hbad
  · rw [hdata] at hd
    cases hd
    rcases h with ⟨e, he, _⟩ | ⟨c, hc, hr, _⟩ | ⟨_, h⟩
    · rw [h200] at he
      cases he
    · rw [h200] at hr
      cases hr
      exact absurd rfl hc
    · exact h

/-- Counterexample to C8 as stated: the two calls of `Write` perform two exchanges, with
bodies `[{"a":1}]` and `[{"b":2}]`, and no request has the body `[{"a":1},{"b":2}]`. -/
theorem scenarioA_makes_two_requests :
    (run alwaysOK [.write (ascii "\x7b\"a\":1\x7d"), .write (ascii "\x7b\"b\":2\x7d")]
        (exampleSink, [])).2.map (fun x => x.1.body) =
      [ascii "[\x7b\"a\":1\x7d]", ascii "[\x7b\"b\":2\x7d]"] ∧
    ∀ x ∈ (run alwaysOK [.write (ascii "\x7b\"a\":1\x7d"), .write (ascii "\x7b\"b\":2\x7d")]
        (exampleSink, [])).2, x.1.body ≠ ascii "[\x7b\"a\":1\x7d,\x7b\"b\":2\x7d]" := by
  decide

/-- C8, amended: from a sink with an empty pending batch, whose URL `url.Parse` accepts,
and an endpoint that answers every request with status 200, `Write` of `{"a":1}`
followed by `Write` of `{"b":2}` performs two exchanges, the first with body
`[{"a":1}]` and the second with body `[{"b":2}]`, and the pending batch ends
empty. -/
theorem scenarioA_one_request_per_write (rt : Runtime) (s : OpenObserveSink) (w : World)
    (hempty : s.messages = [])
    (hurl : urlHasControlByte s.url = false ∧ rt.urlParses s.url = true)
    (h200 : ∀ w1 req, rt.roundTrip w1 req = .response StatusOK) :
    (run rt [.write (ascii "\x7b\"a\":1\x7d"), .write (ascii "\x7b\"b\":2\x7d")] (s, w)).1.messages
        = [] ∧
    (run rt [.write (ascii "\x7b\"a\":1\x7d"), .write (ascii "\x7b\"b\":2\x7d")] (s, w)).2 =
      w ++ [(flushRequest s (ascii "[\x7b\"a\":1\x7d]"), .response StatusOK),
        (flushRequest s (ascii "[\x7b\"b\":2\x7d]"), .response StatusOK)] := by
  have hA : jsonUnmarshal (ascii "\x7b\"a\":1\x7d") = .ok recordA := rfl
  have hB : jsonUnmarshal (ascii "\x7b\"b\":2\x7d") =
      .ok (some [(ascii "b", .float64 ⟨false, 2 ^ 52, -51⟩)]) := rfl
  have h1 := sync_ok rt { s with messages := s.messages ++ [recordA] } w
    (ascii "[\x7b\"a\":1\x7d]") (by simp) (by rw [hempty]; rfl) hurl (h200 _ _)
  have h2 := sync_ok rt
    { s with messages := [] ++ [some [(ascii "b", .float64 ⟨false, 2 ^ 52, -51⟩)]] }
    (w ++ [(flushRequest s (ascii "[\x7b\"a\":1\x7d]"), .response StatusOK)])
    (ascii "[\x7b\"b\":2\x7d]") (by simp) rfl hurl (h200 _ _)
  simp only [run, step, OpenObserveSink.Write, hA, hB]
  simp only [flushRequest] at h1 h2 ⊢
  rw [h1]
  simp only []
  rw [h2]
  simp

theorem scenarioA_one_request_per_write_witness :
    exampleSink.messages = [] ∧
    (urlHasControlByte exampleSink.url = false ∧ alwaysOK.urlParses exampleSink.url = true) ∧
    (∀ w1 req, alwaysOK.roundTrip w1 req = .response StatusOK) ∧
    (run alwaysOK [.write (ascii "\x7b\"a\":1\x7d"), .write (ascii "\x7b\"b\":2\x7d")]
        (exampleSink, [])).1.messages = [] ∧
    (run alwaysOK [.write (ascii "\x7b\"a\":1\x7d"), .write (ascii "\x7b\"b\":2\x7d")]
        (exampleSink, [])).2 =
      [] ++ [(flushRequest exampleSink (ascii "[\x7b\"a\":1\x7d]"), .response StatusOK),
        (flushRequest exampleSink (ascii "[\x7b\"b\":2\x7d]"), .response StatusOK)] :=
  ⟨rfl, by decide, fun _ _ => rfl,
    scenarioA_one_request_per_write alwaysOK exampleSink [] rfl (by decide) (fun _ _ => rfl)⟩

/-! ## Whole runs -/

theorem sync_invariant (rt : Runtime) (s : OpenObserveSink) (w : World) :
    ∃ ex, (s.Sync rt w).world = w ++ ex ∧
      (∀ r ∈ s.messages, r ∈ (s.Sync rt w).sink.messages ∨
        ∃ req batch, (req, Outcome.response StatusOK) ∈ ex ∧ r ∈ batch ∧
          jsonMarshal rt batch = .ok req.body) ∧
      (s.Sync rt w).sink.messages =
        (if (s.Sync rt w).world.length = w.length + 1 ∧
            ((s.Sync rt w).world.getLast?).map Prod.snd = some (.response StatusOK)
          then [] else s.messages) := by
  rcases sync_cases rt s w with ⟨_, h⟩ | ⟨_, _, e, _, _, h⟩ | ⟨_, data, _, hdata, _, h⟩
  · exact ⟨[], by simp [h], fun r hr => Or.inl (by simpa [h] using hr), by simp [h]⟩
  · exact ⟨[], by simp [h], fun r hr => Or.inl (by simpa [h] using hr), by simp [h]⟩
  · rcases h with ⟨e, _, h⟩ | ⟨c, hc, _, h⟩ | ⟨_, h⟩
    · exact ⟨_, by rw [h], fun r hr => Or.inl (by simpa [h] using hr), by simp [h]⟩
    · refine ⟨_, by rw [h], fun r hr => Or.inl (by simpa [h] using hr), ?_⟩
      simp [h, hc]
    · refine ⟨_, by rw [h], fun r hr => Or.inr ⟨flushRequest s data, s.messages, ?_, hr, ?_⟩, ?_⟩
      · simp
      · rw [hdata]
        rfl
      · simp [h]

theorem step_invariant (rt : Runtime) (s : OpenObserveSink) (w : World) (op : Op) :
    ∃ ex, (step rt (s, w) op).2 = w ++ ex ∧
      (∀ r, r ∈ s.messages ∨ r ∈ acceptedBy op →
        r ∈ (step rt (s, w) op).1.messages ∨
        ∃ req batch, (req, Outcome.response StatusOK) ∈ ex ∧ r ∈ batch ∧
          jsonMarshal rt batch = .ok req.body) ∧
      (step rt (s, w) op).1.messages = pendingAfterStep rt (s, w) op s.messages := by
  cases op with
  | write p =>
    cases hp : jsonUnmarshal p with
    | error e =>
      refine ⟨[], ?_, ?_, ?_⟩
      · simp [step, OpenObserveSink.Write, hp]
      · intro r hr
        left
        simpa [step, OpenObserveSink.Write, hp, acceptedBy] using hr
      · simp [pendingAfterStep, step, OpenObserveSink.Write, hp, acceptedBy]
    | ok msg =>
      obtain ⟨ex, hw, hdel, hpend⟩ :=
        sync_invariant rt { s with messages := s.messages ++ [msg] } w
      have hstep : step rt (s, w) (.write p) =
          ((({ s with messages := s.messages ++ [msg] } : OpenObserveSink).Sync rt w).sink,
            (({ s with messages := s.messages ++ [msg] } : OpenObserveSink).Sync rt w).world) := by
        simp [step, OpenObserveSink.Write, hp]
      have hacc : acceptedBy (.write p) = [msg] := by
        simp [acceptedBy, hp]
      refine ⟨ex, ?_, ?_, ?_⟩
      · rw [hstep]
        exact hw
      · intro r hr
        have hr1 : r ∈ s.messages ++ [msg] := by
          simpa [hacc] using hr
        rw [hstep]
        exact hdel r hr1
      · unfold pendingAfterStep
        rw [hstep, hacc]
        exact hpend
  | sync =>
    obtain ⟨ex, hw, hdel, hpend⟩ := sync_invariant rt s w
    refine ⟨ex, by simpa [step] using hw, ?_, ?_⟩
    · intro r hr
      have hr1 : r ∈ s.messages := by simpa [acceptedBy] using hr
      simpa [step] using hdel r hr1
    · simpa [pendingAfterStep, step, acceptedBy] using hpend
  | close =>
    obtain ⟨ex, hw, hdel, hpend⟩ := sync_invariant rt s w
    refine ⟨ex, by simpa [step, OpenObserveSink.Close] using hw, ?_, ?_⟩
    · intro r hr
      have hr1 : r ∈ s.messages := by simpa [acceptedBy] using hr
      simpa [step, OpenObserveSink.Close] using hdel r hr1
    · simpa [pendingAfterStep, step, OpenObserveSink.Close, acceptedBy] using hpend

theorem run_invariant (rt : Runtime) :
    ∀ (ops : List Op) (s : OpenObserveSink) (w : World),
      ∃ ex, (run rt ops (s, w)).2 = w ++ ex ∧
        (∀ r, (r ∈ s.messages ∨ ∃ op ∈ ops, r ∈ acceptedBy op) →
          r ∈ (run rt ops (s, w)).1.messages ∨
          ∃ req batch, (req, Outcome.response StatusOK) ∈ ex ∧ r ∈ batch ∧
            jsonMarshal rt batch = .ok req.body) ∧
        (run rt ops (s, w)).1.messages = pendingAfter rt ops (s, w) s.messages
  | [], s, w => ⟨[], by simp [run], fun r hr => Or.inl (by simpa [run] using hr), rfl⟩
  | op :: ops, s, w => by
    obtain ⟨ex1, hw1, hdel1, hpend1⟩ := step_invariant rt s w op
    obtain ⟨ex2, hw2, hdel2, hpend2⟩ :=
      run_invariant rt ops (step rt (s, w) op).1 (step rt (s, w) op).2
    refine ⟨ex1 ++ ex2, ?_, ?_, ?_⟩
    · simp only [run]
      rw [hw2, hw1, List.append_assoc]
    · intro r hr
      have hmid : r ∈ (step rt (s, w) op).1.messages ∨
          (∃ req batch, (req, Outcome.response StatusOK) ∈ ex1 ∧ r ∈ batch ∧
            jsonMarshal rt batch = .ok req.body) ∨ ∃ op1 ∈ ops, r ∈ acceptedBy op1 := by
        rcases hr with hr | ⟨op1, hop1, hr⟩
        · rcases hdel1 r (Or.inl hr) with h | h
          · exact Or.inl h
          · exact Or.inr (Or.inl h)
        · rcases List.mem_cons.mp hop1 with heq | hin
          · subst heq
            rcases hdel1 r (Or.inr hr) with h | h
            · exact Or.inl h
            · exact Or.inr (Or.inl h)
          · exact Or.inr (Or.inr ⟨op1, hin, hr⟩)
      simp only [run]
      rcases hmid with h | ⟨req, batch, hin, hb, hm⟩ | h
      · rcases hdel2 r (Or.inl h) with h2 | ⟨req, batch, hin, hb, hm⟩
        · exact Or.inl h2
        · exact Or.inr ⟨req, batch, List.mem_append_right _ hin, hb, hm⟩
      · exact Or.inr ⟨req, batch, List.mem_append_left _ hin, hb, hm⟩
      · rcases hdel2 r (Or.inr h) with h2 | ⟨req, batch, hin, hb, hm⟩
        · exact Or.inl h2
        · exact Or.inr ⟨req, batch, List.mem_append_right _ hin, hb, hm⟩
    · simp only [run, pendingAfter]
      rw [hpend2, hpend1]

/-- C9: over any sequence of `Write`, `Sync` and `Close` calls from an empty pending
batch, under any endpoint, every record a `Write` accepted is afterwards in the pending
batch or among the records of the body of a request answered with status 200; and the
pending batch is the list of the records accepted since the last exchange answered with
status 200, in the order of arrival. -/
theorem at_least_once_delivery (rt : Runtime) (s : OpenObserveSink) (w : World)
    (ops : List Op) (hempty : s.messages = []) :
    (∃ ex, (run rt ops (s, w)).2 = w ++ ex ∧
      ∀ op ∈ ops, ∀ r ∈ acceptedBy op,
        r ∈ (run rt ops (s, w)).1.messages ∨
        ∃ req batch, (req, Outcome.response StatusOK) ∈ ex ∧ r ∈ batch ∧
          jsonMarshal rt batch = .ok req.body) ∧
    (run rt ops (s, w)).1.messages = pendingAfter rt ops (s, w) [] := by
  obtain ⟨ex, hw, hdel, hpend⟩ := run_invariant rt ops s w
  refine ⟨⟨ex, hw, fun op hop r hr => hdel r (Or.inr ⟨op, hop, hr⟩)⟩, ?_⟩
  rw [hpend, hempty]

theorem at_least_once_delivery_witness :
    exampleSink.messages = [] ∧
    ((∃ ex, (run alwaysServerError
          [.write (ascii "\x7b\"a\":1\x7d"), .write (ascii "not-json"), .sync, .close]
          (exampleSink, [])).2 = [] ++ ex ∧
      ∀ op ∈ [Op.write (ascii "\x7b\"a\":1\x7d"), .write (ascii "not-json"), .sync, .close],
        ∀ r ∈ acceptedBy op,
          r ∈ (run alwaysServerError
            [.write (ascii "\x7b\"a\":1\x7d"), .write (ascii "not-json"), .sync, .close]
            (exampleSink, [])).1.messages ∨
          ∃ req batch, (req, Outcome.response StatusOK) ∈ ex ∧ r ∈ batch ∧
            jsonMarshal alwaysServerError batch = .ok req.body) ∧
    (run alwaysServerError
        [.write (ascii "\x7b\"a\":1\x7d"), .write (ascii "not-json"), .sync, .close]
        (exampleSink, [])).1.messages =
      pendingAfter alwaysServerError
        [.write (ascii "\x7b\"a\":1\x7d"), .write (ascii "not-json"), .sync, .close]
        (exampleSink, []) []) :=
  ⟨rfl, at_least_once_delivery alwaysServerError exampleSink []
    [.write (ascii "\x7b\"a\":1\x7d"), .write (ascii "not-json"), .sync, .close] rfl⟩

/-! ## Registration -/

/-- Counterexample to C10 as stated: for a URL without host the factory returns a sink,
with destination URL `http:///api/default/quickstart1/_json`. -/
theorem sinkFactory_accepts_missing_host :
    valuesGet urlWithoutHost.Query (ascii "proto") = ascii "http" ∧
    urlWithoutHost.Host = [] ∧
    sinkFactory urlWithoutHost =
      .sink ⟨ascii "http:///api/default/quickstart1/_json", ascii "u", ascii "p", []⟩ :=
  ⟨by decide, rfl, rfl⟩

/-- C10, amended: the sink factory, given a URL whose query has non-empty values for
`proto`, `username` and `password`, returns a sink whose destination URL is
`<proto>://<host><path>`, whose credentials are the `username` and `password` values,
and whose pending batch is empty; given a URL where the value of `proto`, `username` or
`password` is missing or empty, it ends the process with `log.Fatal` and returns no
sink.  A URL without host or path is not refused. -/
theorem sinkFactory_spec (u : URL) :
    (valuesGet u.Query (ascii "proto") ≠ [] ∧ valuesGet u.Query (ascii "username") ≠ [] ∧
        valuesGet u.Query (ascii "password") ≠ [] →
      sinkFactory u = .sink
        ⟨valuesGet u.Query (ascii "proto") ++ ascii "://" ++ u.Host ++ u.Path,
          valuesGet u.Query (ascii "username"), valuesGet u.Query (ascii "password"), []⟩) ∧
    (valuesGet u.Query (ascii "proto") = [] ∨ valuesGet u.Query (ascii "username") = [] ∨
        valuesGet u.Query (ascii "password") = [] →
      ∃ msg, sinkFactory u = .fatal msg) := by
  constructor
  · rintro ⟨h1, h2, h3⟩
    simp [sinkFactory, h1, h2, h3, New]
  · intro h
    by_cases h1 : valuesGet u.Query (ascii "proto") = []
    · exact ⟨"missing proto", by simp [sinkFactory, h1]⟩
    · by_cases h2 : valuesGet u.Query (ascii "username") = []
      · exact ⟨"missing username", by simp [sinkFactory, h1, h2]⟩
      · have h3 : valuesGet u.Query (ascii "password") = [] := by
          rcases h with h | h | h
          · exact absurd h h1
          · exact absurd h h2
          · exact h
        exact ⟨"missing password", by simp [sinkFactory, h1, h2, h3]⟩

theorem sinkFactory_spec_witness :
    (valuesGet urlExample.Query (ascii "proto") ≠ [] ∧
      valuesGet urlExample.Query (ascii "username") ≠ [] ∧
      valuesGet urlExample.Query (ascii "password") ≠ []) ∧
    sinkFactory urlExample = .sink
      ⟨ascii "http://localhost:5080/api/default/quickstart1/_json",
        ascii "root@example.com", ascii "Complexpass#123", []⟩ ∧
    valuesGet urlWithoutPassword.Query (ascii "password") = [] ∧
    ∃ msg, sinkFactory urlWithoutPassword = .fatal msg :=
  ⟨by decide, (sinkFactory_spec urlExample).1 (by decide), by decide,
    (sinkFactory_spec urlWithoutPassword).2 (Or.inr (Or.inr (by decide)))⟩

/-! ## What `Write` accepts -/

theorem roundToFloat64_isSome (neg : Bool) (num den : Nat) :
    (roundToFloat64 neg num den).isSome = decide (num < float64Overflow * den) := by
  unfold roundToFloat64
  by_cases h : float64Overflow * den ≤ num
  · simp [h]
  · simp only [h, if_false]
    have h1 : num < float64Overflow * den := Nat.lt_of_not_le h
    split_ifs <;> simp [h1]

theorem parseFloat_isSome (lit : NumLit) : (parseFloat lit).isSome = lit.fitsFloat64 := by
  unfold parseFloat NumLit.fitsFloat64
  by_cases h0 : lit.mant = 0
  · simp [h0]
  · by_cases he : 0 ≤ lit.exp10
    · simp [h0, he, roundToFloat64_isSome]
    · simp [h0, he, roundToFloat64_isSome]

mutual
theorem decodeValue_isSome : ∀ x : JSON, (decodeValue x).isSome = numbersFit x
  | .null => rfl
  | .bool _ => rfl
  | .num n => by simp [decodeValue, numbersFit, parseFloat_isSome]
  | .str _ => rfl
  | .arr xs => by simp [decodeValue, numbersFit, decodeElements_isSome xs]
  | .obj kvs => by simp [decodeValue, numbersFit, decodeMembers_isSome kvs []]
theorem decodeElements_isSome : ∀ xs : List JSON, (decodeElements xs).isSome = elementsFit xs
  | [] => rfl
  | x :: xs => by
    have h1 := decodeValue_isSome x
    have h2 := decodeElements_isSome xs
    unfold decodeElements elementsFit
    rw [← h1, ← h2]
    cases decodeValue x <;> cases decodeElements xs <;> rfl
theorem decodeMembers_isSome :
    ∀ (kvs : List (Bytes × JSON)) (m : GoMap), (decodeMembers kvs m).isSome = membersFit kvs
  | [], _ => rfl
  | (k, x) :: rest, m => by
    have h1 := decodeValue_isSome x
    unfold decodeMembers membersFit
    rw [← h1]
    cases hx : decodeValue x with
    | none => rfl
    | some v =>
      simp only [Option.isSome_some, Bool.true_and]
      exact decodeMembers_isSome rest (mapSet m (unquoteBytes k) v)
end

theorem jsonUnmarshal_ok_iff (p : Bytes) :
    (∃ msg, jsonUnmarshal p = .ok msg) ↔
      (parseJSON p = some .null ∨
        ∃ kvs, parseJSON p = some (.obj kvs) ∧ numbersFit (.obj kvs) = true) := by
  unfold jsonUnmarshal
  cases hp : parseJSON p with
  | none => simp
  | some v =>
    cases v with
    | null => simp
    | bool b => simp
    | num n => simp
    | str raw => simp
    | arr xs => simp
    | obj kvs =>
      have h := decodeMembers_isSome kvs []
      simp only [numbersFit]
      cases hd : decodeMembers kvs [] with
      | none =>
        rw [hd] at h
        simp [← h]
      | some m =>
        rw [hd] at h
        simp [← h]

theorem sync_err_not_unmarshal (rt : Runtime) (s : OpenObserveSink) (w : World)
    (e : UnmarshalError) : (s.Sync rt w).err ≠ some (.unmarshalFailed e) := by
  rcases sync_cases rt s w with ⟨_, h⟩ | ⟨_, _, _, _, _, h⟩ | ⟨_, _, _, _, _, h⟩
  · simp [h]
  · simp [h]
  · rcases h with ⟨_, _, h⟩ | ⟨_, _, _, h⟩ | ⟨_, h⟩ <;> simp [h]

set_option exponentiation.threshold 2000 in
/-- Counterexample to C4 as stated: the text `null` is not a JSON object, yet `Write`
accepts it and sends it on as `[null]`; the text `{"a":1e999}` is a JSON object, yet
`Write` rejects it with an unmarshal error. -/
theorem write_accepts_null_rejects_large_number :
    (¬ isJSONObject (ascii "null") ∧
      (exampleSink.Write alwaysOK [] (ascii "null")).err = none ∧
      (exampleSink.Write alwaysOK [] (ascii "null")).world.map (fun x => x.1.body) =
        [ascii "[null]"]) ∧
    (isJSONObject (ascii "\x7b\"a\":1e999\x7d") ∧
      (exampleSink.Write alwaysOK [] (ascii "\x7b\"a\":1e999\x7d")).err =
        some (.unmarshalFailed (.typeError "number"))) := by
  refine ⟨⟨?_, by decide, by decide⟩, ⟨_, rfl⟩, by decide⟩
  rintro ⟨kvs, h⟩
  have h1 : parseJSON (ascii "null") = some .null := rfl
  rw [h1] at h
  cases h

/-- C4, amended: `Write` returns an unmarshal error exactly when its input is neither
the JSON text `null` nor a JSON text (nested at most 10000 deep) whose value is an
object all of whose number literals fit a float64 (magnitude zero or below
`2^1024 - 2^970`).  So it rejects malformed text and JSON texts whose value is a
number, a string, a boolean or an array, it accepts `null`, and it rejects an object
that holds a number out of range. -/
theorem write_rejects_iff (rt : Runtime) (s : OpenObserveSink) (w : World) (p : Bytes) :
    (∃ e, (s.Write rt w p).err = some (.unmarshalFailed e)) ↔
      ¬ (parseJSON p = some .null ∨
        ∃ kvs, parseJSON p = some (.obj kvs) ∧ numbersFit (.obj kvs) = true) := by
  rw [← jsonUnmarshal_ok_iff]
  cases hp : jsonUnmarshal p with
  | error e =>
    constructor
    · rintro _ ⟨msg, hmsg⟩
      cases hmsg
    · intro _
      exact ⟨e, by simp [OpenObserveSink.Write, hp]⟩
  | ok msg =>
    constructor
    · rintro ⟨e, he⟩
      simp only [OpenObserveSink.Write, hp] at he
      exact absurd he (sync_err_not_unmarshal rt _ w e)
    · intro h
      exact absurd ⟨msg, rfl⟩ h

/-- Examples for C4: `not-json`, `42` and `[1]` are refused with an unmarshal error and
`{"a":1}` is queued and sent. -/
theorem write_examples :
    (exampleSink.Write alwaysOK [] (ascii "not-json")).err =
        some (.unmarshalFailed .syntaxError) ∧
    (exampleSink.Write alwaysOK [] (ascii "42")).err =
        some (.unmarshalFailed (.typeError "number")) ∧
    (exampleSink.Write alwaysOK [] (ascii "[1]")).err =
        some (.unmarshalFailed (.typeError "array")) ∧
    (exampleSink.Write alwaysOK [] (ascii "\x7b\"a\":1\x7d")).err = none := by
  decide

end OpenObserve
